import Mathlib

/-!
# CampusBridge collaborative code-room relay: a shallow embedding

This file embeds the WebSocket room relay of `src/server/routes.ts`
(`registerRoutes`: the `wss.on("connection")` handler and the
`broadcastToRoom` helper) and proves / refutes the specification's claims
about it.

Modelling decisions, each matching a line of the source:
* a connection handle (`ws`) is a natural number `Conn`; JavaScript `Set`
  membership and `===` on handles is equality on `Conn`;
* the registry `const rooms: Record<string, Set<any>> = {}` is an
  association list from room id to the room's member list, kept in
  JavaScript property-insertion order; a `Set` is a duplicate-free list in
  insertion order (`add` appends when absent, `delete` filters, `forEach`
  iterates in order, `size` is the length);
* the per-connection closure variables `let roomId = ""` and
  `let userId = 0` are a `ConnState` record per connection;
* `client.readyState === 1` is membership in the list of open connections;
* the third argument of `broadcastToRoom` is a JavaScript value that is
  either absent (`null`), a userId number, or — hypothetically — a
  connection handle; JavaScript truthiness and strict equality `===`
  across those runtime types are modelled exactly by `jsTruthy` and
  `jsStrictEq` on `JSVal` (strict equality between a number and an object
  is always `false`);
* timestamps (`new Date().toISOString()`) are omitted from outbound
  payloads: they are environment-supplied and no claim constrains their
  value.
-/

abbrev Conn := Nat

/-- The per-connection closure state of the `wss.on("connection")` handler:
`let roomId = ""` and `let userId = 0`, both reassigned on a `join`. -/
structure ConnState where
  roomId : String
  userId : Int
deriving Repr, DecidableEq

def initConnState : ConnState := ⟨"", 0⟩

/-- A JavaScript runtime value as far as `broadcastToRoom`'s
`excludeUserId` parameter is concerned: `null` (the default), a number
(what the call sites pass), or a connection object (what the comparison
`client === excludeUserId` implicitly expects). -/
inductive JSVal where
  | null
  | num (n : Int)
  | conn (c : Conn)
deriving Repr, DecidableEq

/-- JavaScript truthiness of a `JSVal`: `null` and `0` are falsy. -/
def jsTruthy : JSVal → Bool
  | .null => false
  | .num n => !(n == 0)
  | .conn _ => true

/-- JavaScript strict equality `===` between two `JSVal`s: values of
different runtime types are never strictly equal. -/
def jsStrictEq : JSVal → JSVal → Bool
  | .null, .null => true
  | .num a, .num b => a == b
  | .conn a, .conn b => a == b
  | _, _ => false

/-- Outbound message payloads (the JSON objects passed to `client.send` /
`ws.send`), minus the environment-supplied timestamp field. -/
inductive OutMsg where
  | userJoined (userId : Int) (username : String)
  | roomInfo (roomId : String) (userCount : Nat)
  | codeUpdate (code language : String) (userId : Int) (username : String)
  | chatMessage (message : String) (userId : Int) (username : String)
  | userLeft (userId : Int)
deriving Repr, DecidableEq

/-- Inbound events, after `JSON.parse`: the three recognised `type`s with
their envelope fields (note the envelope `roomId` is carried on
`code_update` / `chat_message` even though the handler never reads it
there), an unrecognised `type`, and an undecodable frame (where
`JSON.parse` throws and the `catch` swallows it). -/
inductive InEvent where
  | join (roomId : String) (userId : Int) (username : String)
  | codeUpdate (envRoomId : String) (code language : String) (userId : Int) (username : String)
  | chatMessage (envRoomId : String) (message : String) (userId : Int) (username : String)
  | unknownType
  | undecodable
deriving Repr, DecidableEq

/-- `rooms[rid]` — association-list lookup, `none` when the key is absent
(JavaScript `undefined`, falsy). -/
def lookupRoom : List (String × List Conn) → String → Option (List Conn)
  | [], _ => none
  | (k, v) :: rest, rid => if k = rid then some v else lookupRoom rest rid

/-- `rooms[rid] = ms` — update in place when the key exists, else append
(JavaScript property-insertion order). -/
def setRoom : List (String × List Conn) → String → List Conn → List (String × List Conn)
  | [], rid, ms => [(rid, ms)]
  | (k, v) :: rest, rid, ms =>
    if k = rid then (rid, ms) :: rest else (k, v) :: setRoom rest rid ms

/-- `delete rooms[rid]`. -/
def delRoom : List (String × List Conn) → String → List (String × List Conn)
  | [], _ => []
  | (k, v) :: rest, rid =>
    if k = rid then delRoom rest rid else (k, v) :: delRoom rest rid

/-- `Set.add`: append unless already present. -/
def setAdd (ms : List Conn) (c : Conn) : List Conn :=
  if c ∈ ms then ms else ms ++ [c]

/-- `Set.delete`: remove the element (a `Set` holds it at most once). -/
def setDelete : List Conn → Conn → List Conn
  | [], _ => []
  | d :: rest, c => if d = c then setDelete rest c else d :: setDelete rest c

/-- Per-connection closure states, keyed by connection handle. -/
def getConnState : List (Conn × ConnState) → Conn → ConnState
  | [], _ => initConnState
  | (k, v) :: rest, c => if k = c then v else getConnState rest c

def setConnState : List (Conn × ConnState) → Conn → ConnState → List (Conn × ConnState)
  | [], c, s => [(c, s)]
  | (k, v) :: rest, c, s =>
    if k = c then (c, s) :: rest else (k, v) :: setConnState rest c s

/-- The whole relay state: the registry `rooms`, every connection's
closure variables, and which connections are open (`readyState === 1`). -/
structure RelayState where
  rooms : List (String × List Conn)
  connStates : List (Conn × ConnState)
  openConns : List Conn
deriving Repr, DecidableEq

def initState : RelayState := ⟨[], [], []⟩

/-- The room a state's registry holds for `rid`, or `[]` when absent. -/
def roomMembers (st : RelayState) (rid : String) : List Conn :=
  (lookupRoom st.rooms rid).getD []

/-- `broadcastToRoom(roomId, message, excludeUserId = null)`:

```js
if (!rooms[roomId]) return;
rooms[roomId].forEach((client) => {
  if (client.readyState === 1) {
    if (excludeUserId && client === excludeUserId) return;
    client.send(JSON.stringify(message));
  }
});
```

Returns the list of `(recipient, message)` sends in iteration order. The
skip condition is the literal JavaScript one: `excludeUserId` truthy AND
`client === excludeUserId` under JavaScript strict equality. -/
def broadcastToRoom (st : RelayState) (roomId : String) (msg : OutMsg)
    (excludeUserId : JSVal) : List (Conn × OutMsg) :=
  match lookupRoom st.rooms roomId with
  | none => []
  | some members =>
    members.filterMap (fun client =>
      if client ∈ st.openConns then
        if jsTruthy excludeUserId && jsStrictEq (.conn client) excludeUserId then none
        else some (client, msg)
      else none)

/-- The `ws.on("message")` handler body (inside its `try`), given the
connection's current closure state inside `st.connStates`. Returns the new
state and the sends it performed, in order. -/
def handleMessage (st : RelayState) (c : Conn) (ev : InEvent) :
    RelayState × List (Conn × OutMsg) :=
  match ev with
  | .join rid uid uname =>
    -- roomId = data.roomId; userId = data.userId;
    -- if (!rooms[roomId]) rooms[roomId] = new Set();
    let rooms1 :=
      match lookupRoom st.rooms rid with
      | none => setRoom st.rooms rid []
      | some _ => st.rooms
    -- rooms[roomId].add(ws);
    let rooms2 := setRoom rooms1 rid (setAdd ((lookupRoom rooms1 rid).getD []) c)
    let st1 : RelayState :=
      { st with rooms := rooms2, connStates := setConnState st.connStates c ⟨rid, uid⟩ }
    -- broadcastToRoom(roomId, {type:"user_joined", ...}, userId);
    let joinSends := broadcastToRoom st1 rid (.userJoined uid uname) (.num uid)
    -- ws.send({type:"room_info", roomId, userCount: rooms[roomId].size, ...});
    (st1, joinSends ++ [(c, .roomInfo rid (roomMembers st1 rid).length)])
  | .codeUpdate _ code lang uid uname =>
    -- broadcastToRoom(roomId, {type:"code_update", ...}, userId);
    let cs := getConnState st.connStates c
    (st, broadcastToRoom st cs.roomId (.codeUpdate code lang uid uname) (.num cs.userId))
  | .chatMessage _ m uid uname =>
    -- broadcastToRoom(roomId, {type:"chat_message", ...});  (no exclude arg)
    let cs := getConnState st.connStates c
    (st, broadcastToRoom st cs.roomId (.chatMessage m uid uname) .null)
  | .unknownType => (st, [])
  | .undecodable => (st, [])

/-- The `ws.on("close")` handler:

```js
if (roomId && rooms[roomId]) {
  rooms[roomId].delete(ws);
  broadcastToRoom(roomId, {type:"user_left", userId, ...});
  if (rooms[roomId].size === 0) delete rooms[roomId];
}
```
-/
def handleClose (st : RelayState) (c : Conn) : RelayState × List (Conn × OutMsg) :=
  let cs := getConnState st.connStates c
  if cs.roomId = "" then (st, [])
  else
    match lookupRoom st.rooms cs.roomId with
    | none => (st, [])
    | some members =>
      let members1 := setDelete members c
      let st1 : RelayState := { st with rooms := setRoom st.rooms cs.roomId members1 }
      let sends := broadcastToRoom st1 cs.roomId (.userLeft cs.userId) .null
      let st2 : RelayState :=
        if members1.length = 0 then { st1 with rooms := delRoom st1.rooms cs.roomId }
        else st1
      (st2, sends)

/-- Transport-level events: a new connection is accepted (fresh closure
state, socket open), a decoded frame arrives on an open connection, or an
open connection closes (socket leaves the open state, then the `close`
handler runs). Events on non-open connections do not occur at the
transport layer and are no-ops here. -/
inductive Ev where
  | connect (c : Conn)
  | message (c : Conn) (ev : InEvent)
  | close (c : Conn)
deriving Repr, DecidableEq

def step (st : RelayState) (e : Ev) : RelayState × List (Conn × OutMsg) :=
  match e with
  | .connect c =>
    if c ∈ st.openConns then (st, [])
    else
      ({ st with openConns := st.openConns ++ [c],
                 connStates := setConnState st.connStates c initConnState }, [])
  | .message c ev =>
    if c ∈ st.openConns then handleMessage st c ev else (st, [])
  | .close c =>
    if c ∈ st.openConns then
      handleClose { st with openConns := setDelete st.openConns c } c
    else (st, [])

/-- Run a trace of transport events from the empty relay. -/
def run (tr : List Ev) : RelayState :=
  tr.foldl (fun st e => (step st e).1) initState

/-! ## Trace wellformedness and the spec-side membership count -/

/-- No tracked room's member set contains `c` (the precondition of `join`
in §4.1: "the caller guarantees the participant is not already registered
in any room"). -/
def notInAnyRoom (st : RelayState) (c : Conn) : Bool :=
  st.rooms.all (fun p => decide (c ∉ p.2))

/-- A transport event is wellformed at a state: connections are fresh when
accepted, message/close events arrive only on open connections, and every
`join` respects §4.1's contract (non-empty room identifier, participant
not already registered in any room). -/
def wfEvB (st : RelayState) : Ev → Bool
  | .connect c => decide (c ∉ st.openConns)
  | .message c ev =>
    decide (c ∈ st.openConns) &&
      (match ev with
       | .join rid _ _ => decide (rid ≠ "") && notInAnyRoom st c
       | _ => true)
  | .close c => decide (c ∈ st.openConns)

def wfFromB (st : RelayState) : List Ev → Bool
  | [] => true
  | e :: rest => wfEvB st e && wfFromB (step st e).1 rest

/-- A wellformed trace from the empty relay. -/
def wfTrace (tr : List Ev) : Bool := wfFromB initState tr

/-- Spec-side bookkeeping, written from the specification's words alone:
after an event, which connections "joined that room and have not since
left it". A `join` naming the room registers the sender; a close (leave)
deregisters it; a freshly accepted connection has not joined anything. -/
def specUpd (f : String → List Conn) (e : Ev) : String → List Conn :=
  fun rid =>
    match e with
    | .connect c => setDelete (f rid) c
    | .message c (.join rid' _ _) =>
      if rid' = rid then setDelete (f rid) c ++ [c] else f rid
    | .message _ _ => f rid
    | .close c => setDelete (f rid) c

/-- The connections that joined room `rid` during the trace and have not
since left it. -/
def joinedNotLeft (tr : List Ev) : String → List Conn :=
  tr.foldl specUpd (fun _ => [])

/-! ## Lemmas about the primitive registry operations -/

theorem lookupRoom_setRoom_self (rs : List (String × List Conn)) (rid : String)
    (ms : List Conn) : lookupRoom (setRoom rs rid ms) rid = some ms := by
  induction rs with
  | nil => simp [setRoom, lookupRoom]
  | cons p rest ih =>
    by_cases h : p.1 = rid
    · simp [setRoom, h, lookupRoom]
    · simp [setRoom, h, lookupRoom, ih]

theorem lookupRoom_setRoom_ne (rs : List (String × List Conn)) {r rid : String}
    (ms : List Conn) (h : r ≠ rid) :
    lookupRoom (setRoom rs rid ms) r = lookupRoom rs r := by
  induction rs with
  | nil => simp [setRoom, lookupRoom, Ne.symm h]
  | cons p rest ih =>
    by_cases hp : p.1 = rid
    · simp [setRoom, hp, lookupRoom, Ne.symm h]
    · simp [setRoom, hp, lookupRoom, ih]

theorem lookupRoom_delRoom_self (rs : List (String × List Conn)) (rid : String) :
    lookupRoom (delRoom rs rid) rid = none := by
  induction rs with
  | nil => simp [delRoom, lookupRoom]
  | cons p rest ih =>
    cases p with
    | mk k v =>
      by_cases hp : k = rid
      · simpa [delRoom, hp] using ih
      · simpa [delRoom, hp, lookupRoom] using ih

theorem lookupRoom_delRoom_ne (rs : List (String × List Conn)) {r rid : String}
    (h : r ≠ rid) : lookupRoom (delRoom rs rid) r = lookupRoom rs r := by
  induction rs with
  | nil => simp [delRoom]
  | cons p rest ih =>
    cases p with
    | mk k v =>
      by_cases hp : k = rid
      · subst hp
        simp [delRoom, lookupRoom, Ne.symm h, ih]
      · simp [delRoom, hp, lookupRoom, ih]

theorem lookupRoom_mem {rs : List (String × List Conn)} {rid : String}
    {ms : List Conn} (h : lookupRoom rs rid = some ms) : (rid, ms) ∈ rs := by
  induction rs with
  | nil => simp [lookupRoom] at h
  | cons p rest ih =>
    cases p with
    | mk k v =>
      by_cases hp : k = rid
      · simp [lookupRoom, hp] at h
        subst hp
        subst h
        exact List.mem_cons_self _ _
      · simp [lookupRoom, hp] at h
        exact List.mem_cons_of_mem _ (ih h)

theorem getConnState_setConnState_self (cs : List (Conn × ConnState)) (c : Conn)
    (s : ConnState) : getConnState (setConnState cs c s) c = s := by
  induction cs with
  | nil => simp [setConnState, getConnState]
  | cons p rest ih =>
    by_cases hp : p.1 = c
    · simp [setConnState, hp, getConnState]
    · simp [setConnState, hp, getConnState, ih]

theorem getConnState_setConnState_ne (cs : List (Conn × ConnState)) {d c : Conn}
    (s : ConnState) (h : d ≠ c) :
    getConnState (setConnState cs c s) d = getConnState cs d := by
  induction cs with
  | nil => simp [setConnState, getConnState, Ne.symm h]
  | cons p rest ih =>
    by_cases hp : p.1 = c
    · simp [setConnState, hp, getConnState, Ne.symm h]
    · simp [setConnState, hp, getConnState, ih]

theorem mem_setDelete {l : List Conn} {c d : Conn} :
    d ∈ setDelete l c ↔ d ∈ l ∧ d ≠ c := by
  induction l with
  | nil => simp [setDelete]
  | cons x xs ih =>
    by_cases hx : x = c
    · subst hx
      rw [show setDelete (x :: xs) x = setDelete xs x from by simp [setDelete]]
      rw [ih]
      simp only [List.mem_cons]
      constructor
      · rintro ⟨h1, h2⟩
        exact ⟨Or.inr h1, h2⟩
      · rintro ⟨h1 | h1, h2⟩
        · exact absurd h1 h2
        · exact ⟨h1, h2⟩
    · rw [show setDelete (x :: xs) c = x :: setDelete xs c from by simp [setDelete, hx]]
      simp only [List.mem_cons, ih]
      constructor
      · rintro (rfl | ⟨h1, h2⟩)
        · exact ⟨Or.inl rfl, hx⟩
        · exact ⟨Or.inr h1, h2⟩
      · rintro ⟨h1 | h1, h2⟩
        · exact Or.inl h1
        · exact Or.inr ⟨h1, h2⟩

theorem setDelete_of_not_mem {l : List Conn} {c : Conn} (h : c ∉ l) :
    setDelete l c = l := by
  induction l with
  | nil => rfl
  | cons x xs ih =>
    simp only [List.mem_cons, not_or] at h
    have hx : x ≠ c := fun hh => h.1 hh.symm
    simp [setDelete, hx, ih h.2]

theorem setDelete_nodup {l : List Conn} (c : Conn) (h : l.Nodup) :
    (setDelete l c).Nodup := by
  induction l with
  | nil => simp [setDelete]
  | cons x xs ih =>
    rcases List.nodup_cons.mp h with ⟨hx, hxs⟩
    by_cases hc : x = c
    · simpa [setDelete, hc] using ih hxs
    · simp only [setDelete, if_neg hc]
      exact List.nodup_cons.mpr ⟨fun hm => hx (mem_setDelete.mp hm).1, ih hxs⟩

theorem setAdd_of_not_mem {l : List Conn} {c : Conn} (h : c ∉ l) :
    setAdd l c = l ++ [c] := by
  simp [setAdd, h]

theorem notInAnyRoom_spec {st : RelayState} {c : Conn}
    (h : notInAnyRoom st c = true) :
    ∀ rid ms, lookupRoom st.rooms rid = some ms → c ∉ ms := by
  intro rid ms hl
  have hmem := lookupRoom_mem hl
  have := (List.all_eq_true.mp h) _ hmem
  simpa using this

theorem setAdd_ne_nil (ms : List Conn) (c : Conn) : setAdd ms c ≠ [] := by
  by_cases h : c ∈ ms
  · simp only [setAdd, if_pos h]
    exact List.ne_nil_of_mem h
  · simp [setAdd, h]

/-! ## How a `join` message transforms the state -/

theorem lookupRoom_join_self (st : RelayState) (c : Conn) (rid : String)
    (uid : Int) (uname : String) :
    lookupRoom (handleMessage st c (.join rid uid uname)).1.rooms rid =
      some (setAdd (roomMembers st rid) c) := by
  simp only [handleMessage]
  cases h : lookupRoom st.rooms rid with
  | none => simp [h, roomMembers, lookupRoom_setRoom_self]
  | some ms => simp [h, roomMembers, lookupRoom_setRoom_self]

theorem lookupRoom_join_ne (st : RelayState) (c : Conn) (rid : String)
    (uid : Int) (uname : String) {r : String} (h : r ≠ rid) :
    lookupRoom (handleMessage st c (.join rid uid uname)).1.rooms r =
      lookupRoom st.rooms r := by
  simp only [handleMessage]
  cases hh : lookupRoom st.rooms rid with
  | none => simp [hh, lookupRoom_setRoom_ne _ _ h]
  | some ms => simp [hh, lookupRoom_setRoom_ne _ _ h]

theorem connStates_join (st : RelayState) (c : Conn) (rid : String)
    (uid : Int) (uname : String) :
    (handleMessage st c (.join rid uid uname)).1.connStates =
      setConnState st.connStates c ⟨rid, uid⟩ := rfl

theorem openConns_join (st : RelayState) (c : Conn) (rid : String)
    (uid : Int) (uname : String) :
    (handleMessage st c (.join rid uid uname)).1.openConns = st.openConns := rfl

theorem sends_join (st : RelayState) (c : Conn) (rid : String)
    (uid : Int) (uname : String) :
    (handleMessage st c (.join rid uid uname)).2 =
      broadcastToRoom (handleMessage st c (.join rid uid uname)).1 rid
          (.userJoined uid uname) (.num uid) ++
        [(c, .roomInfo rid
          (roomMembers (handleMessage st c (.join rid uid uname)).1 rid).length)] := rfl

/-! ## The invariant carried by wellformed traces -/

/-- The invariant tying a relay state to the spec-side membership list
`f`: every registered room has a non-empty identifier and a non-empty,
duplicate-free member set; each member is an open connection whose closure
`roomId` names that room; every open connection that has joined is a
member of the room its closure names; and each room's member set is
exactly the spec-side "joined and not since left" list. -/
structure RelayInv (st : RelayState) (f : String → List Conn) : Prop where
  roomsOK : ∀ rid ms, lookupRoom st.rooms rid = some ms →
    rid ≠ "" ∧ ms ≠ [] ∧ ms.Nodup ∧
      ∀ c, c ∈ ms → c ∈ st.openConns ∧ (getConnState st.connStates c).roomId = rid
  inRoom : ∀ c, c ∈ st.openConns → (getConnState st.connStates c).roomId ≠ "" →
    c ∈ roomMembers st ((getConnState st.connStates c).roomId)
  corr : ∀ rid, roomMembers st rid = f rid

theorem RelayInv.mem_roomId {st : RelayState} {f : String → List Conn} (hI : RelayInv st f)
    {c : Conn} {rid : String} (h : c ∈ roomMembers st rid) :
    c ∈ st.openConns ∧ (getConnState st.connStates c).roomId = rid := by
  unfold roomMembers at h
  cases hl : lookupRoom st.rooms rid with
  | none => rw [hl] at h; simp at h
  | some ms =>
    rw [hl] at h
    exact (hI.roomsOK rid ms hl).2.2.2 c h

theorem RelayInv.not_mem_of_not_open {st : RelayState} {f : String → List Conn}
    (hI : RelayInv st f) {c : Conn} (hc : c ∉ st.openConns) (rid : String) :
    c ∉ roomMembers st rid :=
  fun h => hc (hI.mem_roomId h).1

theorem RelayInv.not_mem_of_roomId_ne {st : RelayState} {f : String → List Conn}
    (hI : RelayInv st f) {c : Conn} {rid : String}
    (h : (getConnState st.connStates c).roomId ≠ rid) :
    c ∉ roomMembers st rid :=
  fun hm => h (hI.mem_roomId hm).2

theorem roomMembers_eq_of_lookup {st : RelayState} {rid : String} {ms : List Conn}
    (h : lookupRoom st.rooms rid = some ms) : roomMembers st rid = ms := by
  simp [roomMembers, h]

theorem inv_remove_open {st : RelayState} {f : String → List Conn}
    (hI : RelayInv st f) {c : Conn} (hnoc : ∀ r, c ∉ roomMembers st r) :
    RelayInv { st with openConns := setDelete st.openConns c }
      (fun r => setDelete (f r) c) := by
  constructor
  · intro rid ms hl
    dsimp only at hl ⊢
    obtain ⟨h1, h2, h3, h4⟩ := hI.roomsOK rid ms hl
    refine ⟨h1, h2, h3, fun d hd => ?_⟩
    obtain ⟨hdo, hdr⟩ := h4 d hd
    have hdc : d ≠ c := by
      intro hh
      subst hh
      exact hnoc rid (by rw [roomMembers_eq_of_lookup hl]; exact hd)
    exact ⟨mem_setDelete.mpr ⟨hdo, hdc⟩, hdr⟩
  · intro d hd hr
    dsimp only at hd hr ⊢
    obtain ⟨hdo, hdc⟩ := mem_setDelete.mp hd
    have := hI.inRoom d hdo hr
    simpa [roomMembers] using this
  · intro rid
    dsimp only
    have h1 : roomMembers st rid = f rid := hI.corr rid
    have h2 : c ∉ f rid := fun h => hnoc rid (h1 ▸ h)
    rw [setDelete_of_not_mem h2]
    simpa [roomMembers] using h1

theorem inv_connect {st : RelayState} {f : String → List Conn} (hI : RelayInv st f)
    {c : Conn} (hc : c ∉ st.openConns) :
    RelayInv
      { st with openConns := st.openConns ++ [c],
                connStates := setConnState st.connStates c initConnState }
      (fun rid => setDelete (f rid) c) := by
  have hno : ∀ rid, c ∉ roomMembers st rid := fun rid h => hc (hI.mem_roomId h).1
  constructor
  · intro rid ms hl
    dsimp only at hl ⊢
    obtain ⟨h1, h2, h3, h4⟩ := hI.roomsOK rid ms hl
    refine ⟨h1, h2, h3, fun d hd => ?_⟩
    obtain ⟨hdo, hdr⟩ := h4 d hd
    have hdc : d ≠ c := fun hh => hc (hh ▸ hdo)
    refine ⟨List.mem_append_left _ hdo, ?_⟩
    rw [getConnState_setConnState_ne _ _ hdc]
    exact hdr
  · intro d hd hr
    dsimp only at hd hr ⊢
    rcases List.mem_append.mp hd with hd | hd
    · have hdc : d ≠ c := fun hh => hc (hh ▸ hd)
      rw [getConnState_setConnState_ne _ _ hdc] at hr ⊢
      have := hI.inRoom d hd hr
      simpa [roomMembers] using this
    · have hdc : d = c := by simpa using hd
      subst hdc
      rw [getConnState_setConnState_self] at hr
      simp [initConnState] at hr
  · intro rid
    dsimp only
    have h1 : roomMembers st rid = f rid := hI.corr rid
    have h2 : c ∉ f rid := fun h => hno rid (h1 ▸ h)
    rw [setDelete_of_not_mem h2]
    simpa [roomMembers] using h1

theorem inv_join {st : RelayState} {f : String → List Conn} (hI : RelayInv st f)
    {c : Conn} {rid : String} (uid : Int) (uname : String)
    (hc : c ∈ st.openConns) (hrid : rid ≠ "")
    (hnot : ∀ r ms, lookupRoom st.rooms r = some ms → c ∉ ms) :
    RelayInv (handleMessage st c (.join rid uid uname)).1
      (fun r => if rid = r then setDelete (f r) c ++ [c] else f r) := by
  have hnotm : ∀ r, c ∉ roomMembers st r := by
    intro r
    unfold roomMembers
    cases hl : lookupRoom st.rooms r with
    | none => simp
    | some ms => simpa using hnot r ms hl
  have hadd : setAdd (roomMembers st rid) c = roomMembers st rid ++ [c] :=
    setAdd_of_not_mem (hnotm rid)
  have hself : lookupRoom (handleMessage st c (.join rid uid uname)).1.rooms rid =
      some (roomMembers st rid ++ [c]) := by
    rw [lookupRoom_join_self, hadd]
  have hmem_self : roomMembers (handleMessage st c (.join rid uid uname)).1 rid =
      roomMembers st rid ++ [c] := by
    simp [roomMembers, hself]
  have hmem_ne : ∀ r, r ≠ rid →
      roomMembers (handleMessage st c (.join rid uid uname)).1 r = roomMembers st r := by
    intro r hr
    simp [roomMembers, lookupRoom_join_ne st c rid uid uname hr]
  have holdprops : ∀ d, d ∈ roomMembers st rid →
      d ∈ st.openConns ∧ (getConnState st.connStates d).roomId = rid := by
    intro d hd
    exact (hI.mem_roomId hd)
  have holdnodup : (roomMembers st rid).Nodup := by
    cases hlo : lookupRoom st.rooms rid with
    | none => simp [roomMembers, hlo]
    | some oms =>
      rw [roomMembers_eq_of_lookup hlo]
      exact (hI.roomsOK rid oms hlo).2.2.1
  constructor
  · intro r ms hl
    by_cases hr : r = rid
    · subst hr
      rw [hself] at hl
      injection hl with hl
      subst hl
      refine ⟨hrid, by simp, ?_, ?_⟩
      · refine List.nodup_append.mpr ⟨holdnodup, List.nodup_singleton _, ?_⟩
        intro a ha hb
        rw [List.mem_singleton] at hb
        subst hb
        exact hnotm r ha
      · intro d hd
        rcases List.mem_append.mp hd with hd | hd
        · obtain ⟨hdo, hdr⟩ := holdprops d hd
          have hdc : d ≠ c := fun hh => hnotm r (hh ▸ hd)
          rw [openConns_join, connStates_join, getConnState_setConnState_ne _ _ hdc]
          exact ⟨hdo, hdr⟩
        · rw [List.mem_singleton] at hd
          subst hd
          rw [openConns_join, connStates_join, getConnState_setConnState_self]
          exact ⟨hc, rfl⟩
    · rw [lookupRoom_join_ne st c rid uid uname hr] at hl
      obtain ⟨h1, h2, h3, h4⟩ := hI.roomsOK r ms hl
      refine ⟨h1, h2, h3, fun d hd => ?_⟩
      obtain ⟨hdo, hdr⟩ := h4 d hd
      have hdc : d ≠ c := fun hh => hnot r ms hl (hh ▸ hd)
      rw [openConns_join, connStates_join, getConnState_setConnState_ne _ _ hdc]
      exact ⟨hdo, hdr⟩
  · intro d hd hroom
    rw [openConns_join] at hd
    by_cases hdc : d = c
    · subst hdc
      rw [connStates_join, getConnState_setConnState_self] at hroom ⊢
      rw [hmem_self]
      exact List.mem_append_right _ (List.mem_singleton_self _)
    · rw [connStates_join, getConnState_setConnState_ne _ _ hdc] at hroom ⊢
      have hin := hI.inRoom d hd hroom
      by_cases hr : (getConnState st.connStates d).roomId = rid
      · rw [hr] at hin ⊢
        rw [hmem_self]
        exact List.mem_append_left _ hin
      · rw [hmem_ne _ hr]
        exact hin
  · intro r
    dsimp only
    by_cases hr : rid = r
    · subst hr
      rw [if_pos rfl, hmem_self, ← hI.corr rid, setDelete_of_not_mem (hnotm rid)]
    · rw [if_neg hr, hmem_ne r (fun hh => hr hh.symm), hI.corr r]

/-! ## How a close event transforms the state -/

theorem close_state_noJoin (st : RelayState) (c : Conn) (hc : c ∈ st.openConns)
    (h : (getConnState st.connStates c).roomId = "") :
    step st (.close c) = ({ st with openConns := setDelete st.openConns c }, []) := by
  simp [step, hc, handleClose, h]

theorem close_state_noRoom (st : RelayState) (c : Conn) (hc : c ∈ st.openConns)
    (h : (getConnState st.connStates c).roomId ≠ "")
    (hl : lookupRoom st.rooms (getConnState st.connStates c).roomId = none) :
    step st (.close c) = ({ st with openConns := setDelete st.openConns c }, []) := by
  simp [step, hc, handleClose, h, hl]

theorem close_state_some (st : RelayState) (c : Conn) (members : List Conn)
    (hc : c ∈ st.openConns) (h : (getConnState st.connStates c).roomId ≠ "")
    (hl : lookupRoom st.rooms (getConnState st.connStates c).roomId = some members) :
    step st (.close c) =
      (if (setDelete members c).length = 0 then
        { st with openConns := setDelete st.openConns c,
                  rooms := delRoom
                    (setRoom st.rooms (getConnState st.connStates c).roomId
                      (setDelete members c))
                    (getConnState st.connStates c).roomId }
      else
        { st with openConns := setDelete st.openConns c,
                  rooms := setRoom st.rooms (getConnState st.connStates c).roomId
                    (setDelete members c) },
       broadcastToRoom
         { st with openConns := setDelete st.openConns c,
                   rooms := setRoom st.rooms (getConnState st.connStates c).roomId
                     (setDelete members c) }
         (getConnState st.connStates c).roomId
         (.userLeft (getConnState st.connStates c).userId) .null) := by
  simp only [step, if_pos hc, handleClose]
  rw [if_neg h, hl]

theorem inv_close {st : RelayState} {f : String → List Conn} (hI : RelayInv st f)
    {c : Conn} (hc : c ∈ st.openConns) :
    RelayInv (step st (.close c)).1 (fun r => setDelete (f r) c) := by
  by_cases hrid : (getConnState st.connStates c).roomId = ""
  · rw [close_state_noJoin st c hc hrid]
    refine inv_remove_open hI ?_
    intro r hm
    obtain ⟨_, hr⟩ := hI.mem_roomId hm
    have hex : ∃ ms, lookupRoom st.rooms r = some ms := by
      unfold roomMembers at hm
      cases hlr : lookupRoom st.rooms r with
      | none => rw [hlr] at hm; simp at hm
      | some ms => exact ⟨ms, rfl⟩
    obtain ⟨ms, hlr⟩ := hex
    exact (hI.roomsOK r ms hlr).1 (hr.symm.trans hrid)
  · cases hl : lookupRoom st.rooms (getConnState st.connStates c).roomId with
    | none =>
      rw [close_state_noRoom st c hc hrid hl]
      refine inv_remove_open hI ?_
      intro r hm
      obtain ⟨_, hr⟩ := hI.mem_roomId hm
      rw [← hr] at hm
      unfold roomMembers at hm
      rw [hl] at hm
      simp at hm
    | some members =>
      obtain ⟨h1, h2, h3, h4⟩ := hI.roomsOK _ _ hl
      have hfr : f ((getConnState st.connStates c).roomId) = members := by
        rw [← hI.corr]
        exact roomMembers_eq_of_lookup hl
      have hnotr : ∀ r, r ≠ (getConnState st.connStates c).roomId →
          c ∉ roomMembers st r := by
        intro r hne hm
        exact hne ((hI.mem_roomId hm).2).symm
      rw [close_state_some st c members hc hrid hl]
      by_cases hnil : (setDelete members c).length = 0
      · rw [if_pos hnil]
        have hml : setDelete members c = [] := List.length_eq_zero.mp hnil
        constructor
        · intro r ms' hl'
          dsimp only at hl' ⊢
          by_cases hr : r = (getConnState st.connStates c).roomId
          · subst hr
            rw [lookupRoom_delRoom_self] at hl'
            exact absurd hl' (by simp)
          · rw [lookupRoom_delRoom_ne _ hr, lookupRoom_setRoom_ne _ _ hr] at hl'
            obtain ⟨hh1, hh2, hh3, hh4⟩ := hI.roomsOK r ms' hl'
            have hcms : c ∉ ms' := fun hh =>
              hnotr r hr (by rw [roomMembers_eq_of_lookup hl']; exact hh)
            refine ⟨hh1, hh2, hh3, fun d hd => ?_⟩
            obtain ⟨hdo, hdr⟩ := hh4 d hd
            have hdc : d ≠ c := fun hh => hcms (hh ▸ hd)
            exact ⟨mem_setDelete.mpr ⟨hdo, hdc⟩, hdr⟩
        · intro d hd hroom
          dsimp only at hd hroom ⊢
          obtain ⟨hdo, hdc⟩ := mem_setDelete.mp hd
          have hin := hI.inRoom d hdo hroom
          by_cases hr : (getConnState st.connStates d).roomId =
              (getConnState st.connStates c).roomId
          · rw [hr] at hin
            rw [roomMembers_eq_of_lookup hl] at hin
            have hds : d ∈ setDelete members c := mem_setDelete.mpr ⟨hin, hdc⟩
            rw [hml] at hds
            simp at hds
          · unfold roomMembers
            dsimp only
            rw [lookupRoom_delRoom_ne _ hr, lookupRoom_setRoom_ne _ _ hr]
            unfold roomMembers at hin
            exact hin
        · intro r
          dsimp only
          by_cases hr : r = (getConnState st.connStates c).roomId
          · subst hr
            unfold roomMembers
            dsimp only
            rw [lookupRoom_delRoom_self, hfr, hml]
            rfl
          · unfold roomMembers
            dsimp only
            rw [lookupRoom_delRoom_ne _ hr, lookupRoom_setRoom_ne _ _ hr]
            have hcf : c ∉ f r := fun hh =>
              hnotr r hr (by rw [hI.corr r]; exact hh)
            rw [setDelete_of_not_mem hcf, ← hI.corr r]
            rfl
      · rw [if_neg hnil]
        have hne : setDelete members c ≠ [] := fun hh => hnil (by rw [hh]; rfl)
        constructor
        · intro r ms' hl'
          dsimp only at hl' ⊢
          by_cases hr : r = (getConnState st.connStates c).roomId
          · subst hr
            rw [lookupRoom_setRoom_self] at hl'
            injection hl' with hl'
            subst hl'
            refine ⟨h1, hne, setDelete_nodup _ h3, fun d hd => ?_⟩
            obtain ⟨hdm, hdc⟩ := mem_setDelete.mp hd
            obtain ⟨hdo, hdr⟩ := h4 d hdm
            exact ⟨mem_setDelete.mpr ⟨hdo, hdc⟩, hdr⟩
          · rw [lookupRoom_setRoom_ne _ _ hr] at hl'
            obtain ⟨hh1, hh2, hh3, hh4⟩ := hI.roomsOK r ms' hl'
            have hcms : c ∉ ms' := fun hh =>
              hnotr r hr (by rw [roomMembers_eq_of_lookup hl']; exact hh)
            refine ⟨hh1, hh2, hh3, fun d hd => ?_⟩
            obtain ⟨hdo, hdr⟩ := hh4 d hd
            have hdc : d ≠ c := fun hh => hcms (hh ▸ hd)
            exact ⟨mem_setDelete.mpr ⟨hdo, hdc⟩, hdr⟩
        · intro d hd hroom
          dsimp only at hd hroom ⊢
          obtain ⟨hdo, hdc⟩ := mem_setDelete.mp hd
          have hin := hI.inRoom d hdo hroom
          by_cases hr : (getConnState st.connStates d).roomId =
              (getConnState st.connStates c).roomId
          · rw [hr] at hin ⊢
            rw [roomMembers_eq_of_lookup hl] at hin
            unfold roomMembers
            dsimp only
            rw [lookupRoom_setRoom_self]
            exact mem_setDelete.mpr ⟨hin, hdc⟩
          · unfold roomMembers
            dsimp only
            rw [lookupRoom_setRoom_ne _ _ hr]
            unfold roomMembers at hin
            exact hin
        · intro r
          dsimp only
          by_cases hr : r = (getConnState st.connStates c).roomId
          · subst hr
            unfold roomMembers
            dsimp only
            rw [lookupRoom_setRoom_self, hfr]
            rfl
          · unfold roomMembers
            dsimp only
            rw [lookupRoom_setRoom_ne _ _ hr]
            have hcf : c ∉ f r := fun hh =>
              hnotr r hr (by rw [hI.corr r]; exact hh)
            rw [setDelete_of_not_mem hcf, ← hI.corr r]
            rfl

theorem inv_step {st : RelayState} {f : String → List Conn} {e : Ev}
    (hI : RelayInv st f) (hw : wfEvB st e = true) :
    RelayInv (step st e).1 (specUpd f e) := by
  cases e with
  | connect c =>
    have hc : c ∉ st.openConns := by simpa [wfEvB] using hw
    have hstep : (step st (.connect c)).1 =
        { st with openConns := st.openConns ++ [c],
                  connStates := setConnState st.connStates c initConnState } := by
      simp [step, hc]
    rw [hstep]
    exact inv_connect hI hc
  | message c ev =>
    cases ev with
    | join rid uid uname =>
      simp only [wfEvB, Bool.and_eq_true, decide_eq_true_eq] at hw
      have hc := hw.1
      have hrid := hw.2.1
      have hroom := hw.2.2
      have hstep : (step st (.message c (.join rid uid uname))).1 =
          (handleMessage st c (.join rid uid uname)).1 := by
        simp [step, hc]
      rw [hstep]
      exact inv_join hI uid uname hc hrid (notInAnyRoom_spec hroom)
    | codeUpdate erid code lang uid uname =>
      have hst : (step st (.message c (.codeUpdate erid code lang uid uname))).1 = st := by
        by_cases hc : c ∈ st.openConns <;> simp [step, hc, handleMessage]
      rw [hst]
      exact ⟨hI.roomsOK, hI.inRoom, hI.corr⟩
    | chatMessage erid m uid uname =>
      have hst : (step st (.message c (.chatMessage erid m uid uname))).1 = st := by
        by_cases hc : c ∈ st.openConns <;> simp [step, hc, handleMessage]
      rw [hst]
      exact ⟨hI.roomsOK, hI.inRoom, hI.corr⟩
    | unknownType =>
      have hst : (step st (.message c .unknownType)).1 = st := by
        by_cases hc : c ∈ st.openConns <;> simp [step, hc, handleMessage]
      rw [hst]
      exact ⟨hI.roomsOK, hI.inRoom, hI.corr⟩
    | undecodable =>
      have hst : (step st (.message c .undecodable)).1 = st := by
        by_cases hc : c ∈ st.openConns <;> simp [step, hc, handleMessage]
      rw [hst]
      exact ⟨hI.roomsOK, hI.inRoom, hI.corr⟩
  | close c =>
    have hc : c ∈ st.openConns := by simpa [wfEvB] using hw
    exact inv_close hI hc

theorem inv_runFrom {tr : List Ev} :
    ∀ {st : RelayState} {f : String → List Conn}, RelayInv st f →
      wfFromB st tr = true →
      RelayInv (tr.foldl (fun s e => (step s e).1) st) (tr.foldl specUpd f) := by
  induction tr with
  | nil => intro st f hI _; exact hI
  | cons e rest ih =>
    intro st f hI hw
    rw [wfFromB, Bool.and_eq_true] at hw
    exact ih (inv_step hI hw.1) hw.2

theorem inv_init : RelayInv initState (fun _ => []) := by
  constructor
  · intro rid ms h
    simp [initState, lookupRoom] at h
  · intro c hc
    simp [initState] at hc
  · intro rid
    simp [roomMembers, initState, lookupRoom]

/-- Every wellformed trace reaches a state satisfying the invariant, with
each room's member set equal to the spec-side "joined and not left" list. -/
theorem inv_run {tr : List Ev} (hw : wfTrace tr = true) :
    RelayInv (run tr) (joinedNotLeft tr) :=
  inv_runFrom inv_init hw

/-! ## No empty room ever persists (true of every trace, wellformed or not) -/

def noEmptyRooms (st : RelayState) : Prop :=
  ∀ rid ms, lookupRoom st.rooms rid = some ms → ms ≠ []

theorem noEmptyRooms_step (st : RelayState) (e : Ev) (h : noEmptyRooms st) :
    noEmptyRooms (step st e).1 := by
  cases e with
  | connect c =>
    have hrooms : (step st (.connect c)).1.rooms = st.rooms := by
      by_cases hc : c ∈ st.openConns <;> simp [step, hc]
    intro rid ms hl
    rw [hrooms] at hl
    exact h rid ms hl
  | message c ev =>
    by_cases hc : c ∈ st.openConns
    · cases ev with
      | join rid uid uname =>
        intro r ms hl
        have hstep : (step st (.message c (.join rid uid uname))).1 =
            (handleMessage st c (.join rid uid uname)).1 := by
          simp [step, hc]
        rw [hstep] at hl
        by_cases hr : r = rid
        · subst hr
          rw [lookupRoom_join_self] at hl
          injection hl with hl
          exact hl ▸ setAdd_ne_nil _ _
        · rw [lookupRoom_join_ne st c rid uid uname hr] at hl
          exact h r ms hl
      | codeUpdate erid code lang uid uname =>
        have hst : (step st (.message c (.codeUpdate erid code lang uid uname))).1 = st := by
          simp [step, hc, handleMessage]
        rw [hst]
        exact h
      | chatMessage erid m uid uname =>
        have hst : (step st (.message c (.chatMessage erid m uid uname))).1 = st := by
          simp [step, hc, handleMessage]
        rw [hst]
        exact h
      | unknownType =>
        have hst : (step st (.message c .unknownType)).1 = st := by
          simp [step, hc, handleMessage]
        rw [hst]
        exact h
      | undecodable =>
        have hst : (step st (.message c .undecodable)).1 = st := by
          simp [step, hc, handleMessage]
        rw [hst]
        exact h
    · have hst : (step st (.message c ev)).1 = st := by simp [step, hc]
      rw [hst]
      exact h
  | close c =>
    by_cases hc : c ∈ st.openConns
    · by_cases hrid : (getConnState st.connStates c).roomId = ""
      · rw [close_state_noJoin st c hc hrid]
        intro rid ms hl
        exact h rid ms hl
      · cases hl : lookupRoom st.rooms (getConnState st.connStates c).roomId with
        | none =>
          rw [close_state_noRoom st c hc hrid hl]
          intro rid ms hl'
          exact h rid ms hl'
        | some members =>
          rw [close_state_some st c members hc hrid hl]
          by_cases hnil : (setDelete members c).length = 0
          · rw [if_pos hnil]
            intro r ms' hl'
            dsimp only at hl'
            by_cases hr : r = (getConnState st.connStates c).roomId
            · subst hr
              rw [lookupRoom_delRoom_self] at hl'
              exact absurd hl' (by simp)
            · rw [lookupRoom_delRoom_ne _ hr, lookupRoom_setRoom_ne _ _ hr] at hl'
              exact h r ms' hl'
          · rw [if_neg hnil]
            intro r ms' hl'
            dsimp only at hl'
            by_cases hr : r = (getConnState st.connStates c).roomId
            · subst hr
              rw [lookupRoom_setRoom_self] at hl'
              injection hl' with hl'
              subst hl'
              exact fun hh => hnil (by rw [hh]; rfl)
            · rw [lookupRoom_setRoom_ne _ _ hr] at hl'
              exact h r ms' hl'
    · have hst : (step st (.close c)).1 = st := by simp [step, hc]
      rw [hst]
      exact h

theorem noEmptyRooms_runFrom {tr : List Ev} :
    ∀ {st : RelayState}, noEmptyRooms st →
      noEmptyRooms (tr.foldl (fun s e => (step s e).1) st) := by
  induction tr with
  | nil => intro st h; exact h
  | cons e rest ih =>
    intro st h
    exact ih (noEmptyRooms_step st e h)

theorem noEmptyRooms_run (tr : List Ev) : noEmptyRooms (run tr) := by
  refine noEmptyRooms_runFrom ?_
  intro rid ms h
  simp [initState, lookupRoom] at h

/-! ## Delivery lemmas for `broadcastToRoom` -/

/-- The skip test `excludeUserId && client === excludeUserId` with a
userId number in `excludeUserId`: a connection object is never strictly
equal to a number, so the test never passes. -/
theorem skip_never_fires (c : Conn) (u : Int) :
    (jsTruthy (.num u) && jsStrictEq (.conn c) (.num u)) = false := by
  simp [jsStrictEq]

/-- Consequently passing a userId as `excludeUserId` excludes nobody: the
broadcast is the same as with no exclusion at all. -/
theorem broadcast_num_eq_broadcast_null (st : RelayState) (rid : String)
    (msg : OutMsg) (u : Int) :
    broadcastToRoom st rid msg (.num u) = broadcastToRoom st rid msg .null := by
  unfold broadcastToRoom
  cases lookupRoom st.rooms rid with
  | none => rfl
  | some members => simp [jsStrictEq, jsTruthy]

/-- With no exclusion the broadcast sends `msg` to exactly the open
members, in room iteration order. -/
theorem broadcast_null_eq_map (st : RelayState) (rid : String) (msg : OutMsg) :
    broadcastToRoom st rid msg .null =
      ((roomMembers st rid).filter (fun c => decide (c ∈ st.openConns))).map
        (fun c => (c, msg)) := by
  unfold broadcastToRoom roomMembers
  cases lookupRoom st.rooms rid with
  | none => rfl
  | some members =>
    simp only [Option.getD_some]
    have h1 : List.filterMap (fun client =>
        if client ∈ st.openConns then
          if jsTruthy JSVal.null && jsStrictEq (JSVal.conn client) JSVal.null then none
          else some (client, msg)
        else none) members =
        List.filterMap
          (fun client => if client ∈ st.openConns then some (client, msg) else none)
          members := by
      apply List.filterMap_congr
      intro a _
      simp [jsTruthy]
    rw [h1]
    clear h1
    induction members with
    | nil => rfl
    | cons a as ih =>
      simp only [List.filterMap_cons, List.filter_cons]
      by_cases ha : a ∈ st.openConns
      · simp [ha, ih]
      · simp [ha, ih]

theorem mem_broadcast_null {st : RelayState} {rid : String} {msg : OutMsg}
    {d : Conn} {m : OutMsg} :
    (d, m) ∈ broadcastToRoom st rid msg .null ↔
      d ∈ roomMembers st rid ∧ d ∈ st.openConns ∧ m = msg := by
  rw [broadcast_null_eq_map]
  simp [List.mem_filter, List.mem_map]
  constructor
  · rintro ⟨a, ⟨ham, hao⟩, h1, h2⟩
    subst h1
    exact ⟨ham, hao, h2.symm⟩
  · rintro ⟨h1, h2, h3⟩
    exact ⟨d, ⟨h1, h2⟩, rfl, h3.symm⟩

/-! ## Per-recipient send counting -/

/-- The sub-list of sends addressed to connection `d`, in order. -/
def sendsTo (sends : List (Conn × OutMsg)) (d : Conn) : List (Conn × OutMsg) :=
  sends.filter (fun p => decide (p.1 = d))

theorem sendsTo_map_of_not_mem {l : List Conn} {msg : OutMsg} {d : Conn}
    (h : d ∉ l) : sendsTo (l.map (fun c => (c, msg))) d = [] := by
  induction l with
  | nil => rfl
  | cons a as ih =>
    simp only [List.mem_cons, not_or] at h
    have ha : a ≠ d := fun hh => h.1 hh.symm
    simp only [List.map_cons, sendsTo, List.filter_cons]
    simp [ha]
    have := ih h.2
    simpa [sendsTo] using this

theorem sendsTo_map_of_mem {l : List Conn} {msg : OutMsg} {d : Conn}
    (hn : l.Nodup) (hd : d ∈ l) :
    sendsTo (l.map (fun c => (c, msg))) d = [(d, msg)] := by
  induction l with
  | nil => simp at hd
  | cons a as ih =>
    obtain ⟨hna, hnas⟩ := List.nodup_cons.mp hn
    rcases List.mem_cons.mp hd with rfl | hd
    · have htail : sendsTo (as.map (fun c => (c, msg))) d = [] :=
        sendsTo_map_of_not_mem hna
      simp only [sendsTo, List.map_cons, List.filter_cons] at htail ⊢
      simp [htail]
    · have ha : a ≠ d := fun hh => hna (hh ▸ hd)
      simp only [List.map_cons, sendsTo, List.filter_cons]
      simp [ha]
      have := ih hnas hd
      simpa [sendsTo] using this

/-- Every open member of the room gets the broadcast message exactly once
(no-exclusion broadcast, duplicate-free member set). -/
theorem sendsTo_broadcast_null {st : RelayState} {rid : String} {msg : OutMsg}
    {d : Conn} (hn : (roomMembers st rid).Nodup) (hd : d ∈ roomMembers st rid)
    (ho : d ∈ st.openConns) :
    sendsTo (broadcastToRoom st rid msg .null) d = [(d, msg)] := by
  rw [broadcast_null_eq_map]
  refine sendsTo_map_of_mem (List.Nodup.filter _ hn) ?_
  rw [List.mem_filter]
  exact ⟨hd, by simpa using ho⟩

/-- Connections that are not open members of the room get nothing. -/
theorem sendsTo_broadcast_null_nil {st : RelayState} {rid : String} {msg : OutMsg}
    {d : Conn} (h : d ∉ roomMembers st rid ∨ d ∉ st.openConns) :
    sendsTo (broadcastToRoom st rid msg .null) d = [] := by
  rw [broadcast_null_eq_map]
  refine sendsTo_map_of_not_mem ?_
  rw [List.mem_filter]
  rintro ⟨h1, h2⟩
  rcases h with h | h
  · exact h h1
  · exact h (by simpa using h2)

def OutMsg.isRoomInfo : OutMsg → Bool
  | .roomInfo _ _ => true
  | _ => false

/-! ## Broadcast with per-recipient delivery failures (for §4.1's
"Delivery semantics"): `client.send` may throw on a half-closed
connection; `Set.forEach` does not catch, so an exception aborts the
iteration. `forEachSend` returns the recipients to whom a send call was
made, in order, and whether an exception escaped the loop. -/

def forEachSend (oc failing : List Conn) (excl : JSVal) :
    List Conn → List Conn × Bool
  | [] => ([], false)
  | c :: rest =>
    if c ∈ oc then
      if jsTruthy excl && jsStrictEq (.conn c) excl then
        forEachSend oc failing excl rest
      else if c ∈ failing then ([c], true)
      else
        ((c :: (forEachSend oc failing excl rest).1),
          (forEachSend oc failing excl rest).2)
    else forEachSend oc failing excl rest

/-- `broadcastToRoom` when sends can fail: attempted recipients in order,
and whether an exception escaped. -/
def broadcastAttempts (st : RelayState) (failing : List Conn) (roomId : String)
    (excl : JSVal) : List Conn × Bool :=
  match lookupRoom st.rooms roomId with
  | none => ([], false)
  | some members => forEachSend st.openConns failing excl members

theorem mem_setAdd_self (l : List Conn) (c : Conn) : c ∈ setAdd l c := by
  by_cases h : c ∈ l <;> simp [setAdd, h]

theorem filter_isRoomInfo_userJoined_map (l : List Conn) (u : Int) (n : String) :
    ((l.map (fun d => (d, OutMsg.userJoined u n))).filter
      (fun p => p.2.isRoomInfo)) = [] := by
  induction l with
  | nil => rfl
  | cons a as ih => simp [OutMsg.isRoomInfo, ih]

/-! ## The claims -/

/-- C1. The spec claims a broadcast that names an excluded originator
(`code_update`, `user_joined`) is never delivered back to that originator.
The code contradicts this — and its own comment "Skip sending to the
originator": `broadcastToRoom` compares the connection object against a
userId number (`client === excludeUserId`), which is never strictly equal,
so passing a userId excludes nobody (first conjunct, the mechanism), and
concretely the sender of a `code_update` in room {A,B,C} receives its own
update, and a joiner receives its own `user_joined` (remaining conjuncts,
the code evaluated at the failing inputs). -/
theorem c1_excluded_originator_still_receives :
    (∀ (st : RelayState) (rid : String) (msg : OutMsg) (u : Int),
      broadcastToRoom st rid msg (.num u) = broadcastToRoom st rid msg .null) ∧
    (1, OutMsg.codeUpdate "x" "py" 10 "a") ∈
      (step (run [.connect 1, .message 1 (.join "R" 10 "a"),
                  .connect 2, .message 2 (.join "R" 20 "b"),
                  .connect 3, .message 3 (.join "R" 30 "c")])
        (.message 1 (.codeUpdate "R" "x" "py" 10 "a"))).2 ∧
    (2, OutMsg.userJoined 20 "b") ∈
      (step (run [.connect 1, .message 1 (.join "R" 10 "a"), .connect 2])
        (.message 2 (.join "R" 20 "b"))).2 :=
  ⟨broadcast_num_eq_broadcast_null, by decide, by decide⟩

/-- C2. A `chat_message` from a participant that is a member of a tracked
room leaves the state unchanged and is delivered to every open member of
that room — including the sender itself, since no exclusion argument is
passed. -/
theorem c2_chat_delivered_to_all_including_sender
    (st : RelayState) (c : Conn) (erid m : String) (uid : Int) (uname : String)
    (ms : List Conn)
    (hl : lookupRoom st.rooms (getConnState st.connStates c).roomId = some ms)
    (hc : c ∈ ms) :
    (handleMessage st c (.chatMessage erid m uid uname)).1 = st ∧
    (∀ d, d ∈ ms → d ∈ st.openConns →
      (d, OutMsg.chatMessage m uid uname) ∈
        (handleMessage st c (.chatMessage erid m uid uname)).2) ∧
    (c ∈ st.openConns →
      (c, OutMsg.chatMessage m uid uname) ∈
        (handleMessage st c (.chatMessage erid m uid uname)).2) := by
  have hsends : (handleMessage st c (.chatMessage erid m uid uname)).2 =
      broadcastToRoom st (getConnState st.connStates c).roomId
        (.chatMessage m uid uname) .null := rfl
  have hdeliver : ∀ d, d ∈ ms → d ∈ st.openConns →
      (d, OutMsg.chatMessage m uid uname) ∈
        (handleMessage st c (.chatMessage erid m uid uname)).2 := by
    intro d hd hdo
    rw [hsends]
    exact mem_broadcast_null.mpr ⟨by rw [roomMembers_eq_of_lookup hl]; exact hd, hdo, rfl⟩
  exact ⟨rfl, hdeliver, fun hco => hdeliver c hc hco⟩

theorem c2_witness :
    (handleMessage (run [.connect 1, .message 1 (.join "R" 10 "a"),
                         .connect 2, .message 2 (.join "R" 20 "b")])
      1 (.chatMessage "R" "hi" 10 "a")).1 =
      run [.connect 1, .message 1 (.join "R" 10 "a"),
           .connect 2, .message 2 (.join "R" 20 "b")] ∧
    (1, OutMsg.chatMessage "hi" 10 "a") ∈
      (handleMessage (run [.connect 1, .message 1 (.join "R" 10 "a"),
                           .connect 2, .message 2 (.join "R" 20 "b")])
        1 (.chatMessage "R" "hi" 10 "a")).2 := by
  have h := c2_chat_delivered_to_all_including_sender
    (run [.connect 1, .message 1 (.join "R" 10 "a"),
          .connect 2, .message 2 (.join "R" 20 "b")])
    1 "R" "hi" 10 "a" [1, 2] (by decide) (by decide)
  exact ⟨h.1, h.2.2 (by decide)⟩

/-- C3. The registry never holds an empty room: in every state reachable
by any event trace, a registered room's member set is non-empty (the close
handler deletes the entry the moment the last member is removed). And a
join naming a room identifier that is absent from the registry recreates
it fresh: the resulting member set is exactly the joiner, and the joiner's
`room_info` acknowledgment reports userCount = 1. -/
theorem c3_no_empty_room_persists :
    (∀ (tr : List Ev) (rid : String) (ms : List Conn),
      lookupRoom (run tr).rooms rid = some ms → ms ≠ []) ∧
    (∀ (st : RelayState) (c : Conn) (rid : String) (uid : Int) (uname : String),
      lookupRoom st.rooms rid = none →
      roomMembers (handleMessage st c (.join rid uid uname)).1 rid = [c] ∧
      (c, OutMsg.roomInfo rid 1) ∈ (handleMessage st c (.join rid uid uname)).2) := by
  constructor
  · intro tr rid ms hl
    exact noEmptyRooms_run tr rid ms hl
  · intro st c rid uid uname hl
    have hmem : roomMembers (handleMessage st c (.join rid uid uname)).1 rid = [c] := by
      unfold roomMembers
      rw [lookupRoom_join_self]
      have : roomMembers st rid = [] := by simp [roomMembers, hl]
      rw [this]
      rfl
    refine ⟨hmem, ?_⟩
    rw [sends_join, hmem]
    exact List.mem_append_right _ (List.mem_singleton_self _)

theorem c3_witness :
    (([1, 2] : List Conn) ≠ []) ∧
    roomMembers (handleMessage
      (run [.connect 1, .message 1 (.join "R" 10 "a"), .close 1, .connect 2])
      2 (.join "R" 20 "b")).1 "R" = [2] ∧
    (2, OutMsg.roomInfo "R" 1) ∈
      (handleMessage
        (run [.connect 1, .message 1 (.join "R" 10 "a"), .close 1, .connect 2])
        2 (.join "R" 20 "b")).2 := by
  refine ⟨?_, ?_⟩
  · exact c3_no_empty_room_persists.1
      [.connect 1, .message 1 (.join "R" 10 "a"), .connect 2, .message 2 (.join "R" 20 "b")]
      "R" [1, 2] (by decide)
  · exact c3_no_empty_room_persists.2
      (run [.connect 1, .message 1 (.join "R" 10 "a"), .close 1, .connect 2])
      2 "R" 20 "b" (by decide)

/-- C4. For every wellformed trace — message and close events arrive on
open connections, and every join respects §4.1's contract (non-empty room
identifier, sender not already registered in any room) — and every room
present in the registry, the tracked member set's size equals the number
of connections that joined that room and have not since left it (computed
from the trace alone by `joinedNotLeft`). -/
theorem c4_member_count_matches_joins (tr : List Ev) (hw : wfTrace tr = true)
    (rid : String) (ms : List Conn)
    (hl : lookupRoom (run tr).rooms rid = some ms) :
    ms.length = (joinedNotLeft tr rid).length := by
  have hI := inv_run hw
  have hc := hI.corr rid
  rw [roomMembers_eq_of_lookup hl] at hc
  rw [hc]

theorem c4_witness :
    wfTrace [.connect 1, .message 1 (.join "R" 10 "a"),
             .connect 2, .message 2 (.join "R" 20 "b"), .close 1] = true ∧
    ([2] : List Conn).length =
      (joinedNotLeft [.connect 1, .message 1 (.join "R" 10 "a"),
                      .connect 2, .message 2 (.join "R" 20 "b"), .close 1] "R").length :=
  ⟨by decide,
    c4_member_count_matches_joins
      [.connect 1, .message 1 (.join "R" 10 "a"),
       .connect 2, .message 2 (.join "R" 20 "b"), .close 1]
      (by decide) "R" [2] (by decide)⟩

/-- C5 counterexample. The claim "each connection is a member of at most
one room's set at every reachable state; a double join is an idempotent
overwrite and does not leave the connection registered in two rooms" is
false on the code: after a connection joins room "A" and then sends a
second join naming room "B", the close handler's bookkeeping has moved
only the closure variable — the connection sits in both rooms' member
sets. -/
theorem c5_counterexample_double_join_in_two_rooms :
    1 ∈ roomMembers (run [.connect 1, .message 1 (.join "A" 10 "a"),
                          .message 1 (.join "B" 10 "a")]) "A" ∧
    1 ∈ roomMembers (run [.connect 1, .message 1 (.join "A" 10 "a"),
                          .message 1 (.join "B" 10 "a")]) "B" ∧
    (getConnState (run [.connect 1, .message 1 (.join "A" 10 "a"),
                        .message 1 (.join "B" 10 "a")]).connStates 1).roomId = "B" := by
  decide

/-- C5 amended. When every join respects §4.1's precondition (the sender
is not already registered in any room), each connection is a member of at
most one room's set at every reachable state. A double join is non-fatal
and overwrites the per-connection roomId, but a second join naming a
different room leaves the connection in the previous room's set as well
(see the counterexample), so the "at most one room" invariant holds only
under that precondition. -/
theorem c5_amended_at_most_one_room (tr : List Ev) (hw : wfTrace tr = true)
    (c : Conn) (r1 r2 : String) (ms1 ms2 : List Conn)
    (h1 : lookupRoom (run tr).rooms r1 = some ms1)
    (h2 : lookupRoom (run tr).rooms r2 = some ms2)
    (hc1 : c ∈ ms1) (hc2 : c ∈ ms2) : r1 = r2 := by
  have hI := inv_run hw
  have e1 := ((hI.roomsOK r1 ms1 h1).2.2.2 c hc1).2
  have e2 := ((hI.roomsOK r2 ms2 h2).2.2.2 c hc2).2
  rw [← e1, ← e2]

theorem c5_witness :
    wfTrace [.connect 1, .message 1 (.join "A" 10 "a"),
             .connect 2, .message 2 (.join "B" 20 "b")] = true ∧
    ("A" : String) = "A" :=
  ⟨by decide,
    c5_amended_at_most_one_room
      [.connect 1, .message 1 (.join "A" 10 "a"),
       .connect 2, .message 2 (.join "B" 20 "b")]
      (by decide) 1 "A" "A" [1] [1] (by decide) (by decide) (by decide) (by decide)⟩

/-- C6. On every join, the output contains exactly one `room_info` send;
it is addressed to the joining connection; its userCount is the length of
the room's member set in the post-join state; and the joiner has indeed
been added to that set. Existing members receive no `room_info`. -/
theorem c6_room_info_exactly_once_to_joiner
    (st : RelayState) (c : Conn) (rid : String) (uid : Int) (uname : String) :
    ((handleMessage st c (.join rid uid uname)).2.filter
        (fun p => p.2.isRoomInfo)) =
      [(c, OutMsg.roomInfo rid
        (roomMembers (handleMessage st c (.join rid uid uname)).1 rid).length)] ∧
    c ∈ roomMembers (handleMessage st c (.join rid uid uname)).1 rid := by
  constructor
  · rw [sends_join, List.filter_append]
    have h1 : ((broadcastToRoom (handleMessage st c (.join rid uid uname)).1 rid
        (.userJoined uid uname) (.num uid)).filter (fun p => p.2.isRoomInfo)) = [] := by
      rw [broadcast_num_eq_broadcast_null, broadcast_null_eq_map]
      exact filter_isRoomInfo_userJoined_map _ uid uname
    rw [h1]
    simp [OutMsg.isRoomInfo]
  · unfold roomMembers
    rw [lookupRoom_join_self]
    exact mem_setAdd_self _ c

/-- C7. Malformed or out-of-context inbound events are dropped without
effect: an unknown `type` and an undecodable frame return the state
unchanged with no sends; a `code_update` or `chat_message` from a
connection whose tracked room is absent (in particular one that never
joined, whose closure roomId is still the initial `""` — and no wellformed
trace ever registers a room named `""`, third conjunct) is a no-op; and no
message event ever removes a connection from the open set. The handlers
are total functions, so no exception escapes. -/
theorem c7_malformed_and_unjoined_events_are_noops :
    (∀ (st : RelayState) (c : Conn),
      handleMessage st c .unknownType = (st, []) ∧
      handleMessage st c .undecodable = (st, [])) ∧
    (∀ (st : RelayState) (c : Conn) (erid code lang m : String)
        (uid : Int) (uname : String),
      lookupRoom st.rooms (getConnState st.connStates c).roomId = none →
      handleMessage st c (.codeUpdate erid code lang uid uname) = (st, []) ∧
      handleMessage st c (.chatMessage erid m uid uname) = (st, [])) ∧
    (∀ tr : List Ev, wfTrace tr = true → lookupRoom (run tr).rooms "" = none) ∧
    (∀ (st : RelayState) (c : Conn) (ev : InEvent),
      (step st (.message c ev)).1.openConns = st.openConns) := by
  refine ⟨?_, ?_, ?_, ?_⟩
  · intro st c
    exact ⟨rfl, rfl⟩
  · intro st c erid code lang m uid uname hl
    constructor
    · simp [handleMessage, broadcastToRoom, hl]
    · simp [handleMessage, broadcastToRoom, hl]
  · intro tr hw
    cases hl : lookupRoom (run tr).rooms "" with
    | none => rfl
    | some ms => exact absurd rfl ((inv_run hw).roomsOK "" ms hl).1
  · intro st c ev
    by_cases hc : c ∈ st.openConns
    · cases ev with
      | join rid uid uname =>
        have hs : (step st (.message c (.join rid uid uname))).1 =
            (handleMessage st c (.join rid uid uname)).1 := by
          simp [step, hc]
        rw [hs, openConns_join]
      | codeUpdate erid code lang uid uname => simp [step, hc, handleMessage]
      | chatMessage erid m uid uname => simp [step, hc, handleMessage]
      | unknownType => simp [step, hc, handleMessage]
      | undecodable => simp [step, hc, handleMessage]
    · simp [step, hc]

theorem c7_witness :
    handleMessage (run [.connect 1, .message 1 (.join "R" 10 "a"), .connect 2])
        2 (.codeUpdate "R" "x" "py" 20 "b") =
      (run [.connect 1, .message 1 (.join "R" 10 "a"), .connect 2], []) ∧
    lookupRoom (run [.connect 1, .message 1 (.join "R" 10 "a")]).rooms "" = none := by
  constructor
  · exact (c7_malformed_and_unjoined_events_are_noops.2.1
      (run [.connect 1, .message 1 (.join "R" 10 "a"), .connect 2])
      2 "R" "x" "py" "unused" 20 "b" (by decide)).1
  · exact c7_malformed_and_unjoined_events_are_noops.2.2.1
      [.connect 1, .message 1 (.join "R" 10 "a")] (by decide)

/-- C8. Leave handling: a close on an open connection that never joined
(closure roomId still `""`) removes it from the open set and nothing else
— no broadcast, registry untouched; the same holds when its room entry is
already gone; in a reachable wellformed state, when a member of a room
closes, every other member of that room receives exactly one `user_left`
carrying the leaver's userId; and when the removal empties the room, no
send at all is produced and the room entry is deleted. The handler is a
total function, so no error is raised in any of these cases. -/
theorem c8_leave_safe_and_user_left_exactly_once :
    (∀ (st : RelayState) (c : Conn), c ∈ st.openConns →
      (getConnState st.connStates c).roomId = "" →
      step st (.close c) = ({ st with openConns := setDelete st.openConns c }, [])) ∧
    (∀ (st : RelayState) (c : Conn), c ∈ st.openConns →
      (getConnState st.connStates c).roomId ≠ "" →
      lookupRoom st.rooms (getConnState st.connStates c).roomId = none →
      step st (.close c) = ({ st with openConns := setDelete st.openConns c }, [])) ∧
    (∀ tr : List Ev, wfTrace tr = true → ∀ c d : Conn,
      c ∈ (run tr).openConns →
      d ∈ roomMembers (run tr) ((getConnState (run tr).connStates c).roomId) →
      d ≠ c →
      sendsTo (step (run tr) (.close c)).2 d =
        [(d, OutMsg.userLeft (getConnState (run tr).connStates c).userId)]) ∧
    (∀ (st : RelayState) (c : Conn) (members : List Conn),
      c ∈ st.openConns →
      (getConnState st.connStates c).roomId ≠ "" →
      lookupRoom st.rooms (getConnState st.connStates c).roomId = some members →
      setDelete members c = [] →
      (step st (.close c)).2 = [] ∧
      lookupRoom (step st (.close c)).1.rooms
        (getConnState st.connStates c).roomId = none) := by
  refine ⟨?_, ?_, ?_, ?_⟩
  · intro st c hc h
    exact close_state_noJoin st c hc h
  · intro st c hc h hl
    exact close_state_noRoom st c hc h hl
  · intro tr hw c d hc hd hdc
    have hI := inv_run hw
    have hex : ∃ ms, lookupRoom (run tr).rooms
        ((getConnState (run tr).connStates c).roomId) = some ms := by
      unfold roomMembers at hd
      cases hl : lookupRoom (run tr).rooms
          ((getConnState (run tr).connStates c).roomId) with
      | none => rw [hl] at hd; simp at hd
      | some ms => exact ⟨ms, rfl⟩
    obtain ⟨ms, hl⟩ := hex
    obtain ⟨h1, _, h3, h4⟩ := hI.roomsOK _ _ hl
    rw [roomMembers_eq_of_lookup hl] at hd
    rw [close_state_some (run tr) c ms hc h1 hl]
    dsimp only
    refine sendsTo_broadcast_null ?_ ?_ ?_
    · unfold roomMembers
      dsimp only
      rw [lookupRoom_setRoom_self]
      exact setDelete_nodup _ h3
    · unfold roomMembers
      dsimp only
      rw [lookupRoom_setRoom_self]
      exact mem_setDelete.mpr ⟨hd, hdc⟩
    · dsimp only
      exact mem_setDelete.mpr ⟨(h4 d hd).1, hdc⟩
  · intro st c members hc hrid hl hnil
    have hlen : (setDelete members c).length = 0 := by rw [hnil]; rfl
    rw [close_state_some st c members hc hrid hl]
    constructor
    · dsimp only
      rw [broadcast_null_eq_map]
      unfold roomMembers
      dsimp only
      rw [lookupRoom_setRoom_self]
      simp [hnil]
    · dsimp only
      rw [if_pos hlen]
      dsimp only
      rw [lookupRoom_delRoom_self]

theorem c8_witness :
    sendsTo (step (run [.connect 1, .message 1 (.join "R" 10 "a"),
                        .connect 2, .message 2 (.join "R" 20 "b")]) (.close 2)).2 1 =
      [(1, OutMsg.userLeft 20)] ∧
    ((step (run [.connect 1, .message 1 (.join "R" 10 "a")]) (.close 1)).2 = [] ∧
      lookupRoom (step (run [.connect 1, .message 1 (.join "R" 10 "a")])
          (.close 1)).1.rooms
        ((getConnState (run [.connect 1, .message 1 (.join "R" 10 "a")]).connStates
          1).roomId) = none) := by
  constructor
  · have h := c8_leave_safe_and_user_left_exactly_once.2.2.1
      [.connect 1, .message 1 (.join "R" 10 "a"),
       .connect 2, .message 2 (.join "R" 20 "b")]
      (by decide) 2 1 (by decide) (by decide) (by decide)
    exact h.trans (by decide)
  · exact c8_leave_safe_and_user_left_exactly_once.2.2.2
      (run [.connect 1, .message 1 (.join "R" 10 "a")]) 1 [1]
      (by decide) (by decide) (by decide) (by decide)

/-- C9 counterexample. The claim that delivery failures are isolated per
recipient is false on the code: `client.send` is called inside
`Set.forEach` with no per-send try/catch, so a throwing send aborts the
iteration. Concretely, in room {1,2,3} with all three open and only 2's
send throwing, the attempts are exactly [1, 2] and an exception escapes:
participant 3 — open, not failing — is never attempted. -/
theorem c9_counterexample_failure_aborts_broadcast :
    broadcastAttempts ⟨[("R", [1, 2, 3])], [], [1, 2, 3]⟩ [2] "R" .null =
      ([1, 2], true) ∧
    3 ∈ roomMembers ⟨[("R", [1, 2, 3])], [], [1, 2, 3]⟩ "R" ∧
    3 ∈ RelayState.openConns ⟨[("R", [1, 2, 3])], [], [1, 2, 3]⟩ ∧
    3 ∉ ([2] : List Conn) := by
  decide

/-- C9 amended. A delivery failure is not isolated: when the first failing
open recipient `c` is reached, every open recipient before it in the
room's iteration order has been sent to, `c` itself is attempted, the
exception escapes the loop, and no recipient after `c` is attempted. -/
theorem c9_amended_failure_aborts_tail (oc failing pre post : List Conn) (c : Conn)
    (hpre : ∀ d ∈ pre, ¬(d ∈ oc ∧ d ∈ failing)) (hc : c ∈ oc) (hf : c ∈ failing) :
    forEachSend oc failing .null (pre ++ c :: post) =
      (pre.filter (fun d => decide (d ∈ oc)) ++ [c], true) := by
  induction pre with
  | nil =>
    simp only [List.nil_append, forEachSend]
    rw [if_pos hc]
    simp [jsTruthy, hf]
  | cons a pre ih =>
    have ha := hpre a (List.mem_cons_self a _)
    have hrest : ∀ d ∈ pre, ¬(d ∈ oc ∧ d ∈ failing) :=
      fun d hd => hpre d (List.mem_cons_of_mem _ hd)
    by_cases hao : a ∈ oc
    · have haf : a ∉ failing := fun hh => ha ⟨hao, hh⟩
      simp only [List.cons_append, forEachSend, List.filter_cons]
      rw [if_pos hao]
      simp [jsTruthy, haf, ih hrest, hao]
    · simp only [List.cons_append, forEachSend, List.filter_cons]
      rw [if_neg hao]
      simp [ih hrest, hao]

theorem c9_witness :
    (∀ d ∈ ([1] : List Conn),
      ¬(d ∈ ([1, 2, 3] : List Conn) ∧ d ∈ ([2] : List Conn))) ∧
    forEachSend [1, 2, 3] [2] .null ([1] ++ 2 :: [3]) =
      (([1] : List Conn).filter (fun d => decide (d ∈ ([1, 2, 3] : List Conn))) ++ [2],
        true) :=
  ⟨by decide,
    c9_amended_failure_aborts_tail [1, 2, 3] [2] [1] [3] 2
      (by decide) (by decide) (by decide)⟩

/-- C10. `code_update` and `chat_message` are relayed to the room recorded
in the sender's per-connection closure state, not the room named in the
event envelope: the handler result is literally independent of the
envelope `roomId` (first two conjuncts), and every recipient of the
resulting broadcast is a member of the room the sender joined (last two
conjuncts). -/
theorem c10_envelope_roomId_ignored :
    (∀ (st : RelayState) (c : Conn) (erid1 erid2 code lang : String)
        (uid : Int) (uname : String),
      handleMessage st c (.codeUpdate erid1 code lang uid uname) =
        handleMessage st c (.codeUpdate erid2 code lang uid uname)) ∧
    (∀ (st : RelayState) (c : Conn) (erid1 erid2 m : String)
        (uid : Int) (uname : String),
      handleMessage st c (.chatMessage erid1 m uid uname) =
        handleMessage st c (.chatMessage erid2 m uid uname)) ∧
    (∀ (st : RelayState) (c : Conn) (erid code lang : String) (uid : Int)
        (uname : String) (d : Conn) (msg : OutMsg),
      (d, msg) ∈ (handleMessage st c (.codeUpdate erid code lang uid uname)).2 →
      d ∈ roomMembers st ((getConnState st.connStates c).roomId)) ∧
    (∀ (st : RelayState) (c : Conn) (erid m : String) (uid : Int)
        (uname : String) (d : Conn) (msg : OutMsg),
      (d, msg) ∈ (handleMessage st c (.chatMessage erid m uid uname)).2 →
      d ∈ roomMembers st ((getConnState st.connStates c).roomId)) := by
  refine ⟨fun _ _ _ _ _ _ _ _ => rfl, fun _ _ _ _ _ _ _ => rfl, ?_, ?_⟩
  · intro st c erid code lang uid uname d msg hm
    have hs : (handleMessage st c (.codeUpdate erid code lang uid uname)).2 =
        broadcastToRoom st (getConnState st.connStates c).roomId
          (.codeUpdate code lang uid uname)
          (.num (getConnState st.connStates c).userId) := rfl
    rw [hs, broadcast_num_eq_broadcast_null] at hm
    exact (mem_broadcast_null.mp hm).1
  · intro st c erid m uid uname d msg hm
    have hs : (handleMessage st c (.chatMessage erid m uid uname)).2 =
        broadcastToRoom st (getConnState st.connStates c).roomId
          (.chatMessage m uid uname) .null := rfl
    rw [hs] at hm
    exact (mem_broadcast_null.mp hm).1

theorem c10_witness :
    1 ∈ roomMembers (run [.connect 1, .message 1 (.join "R" 10 "a"),
                          .connect 2, .message 2 (.join "R" 20 "b")])
      ((getConnState (run [.connect 1, .message 1 (.join "R" 10 "a"),
                           .connect 2, .message 2 (.join "R" 20 "b")]).connStates
        2).roomId) :=
  c10_envelope_roomId_ignored.2.2.1
    (run [.connect 1, .message 1 (.join "R" 10 "a"),
          .connect 2, .message 2 (.join "R" 20 "b")])
    2 "SOME-OTHER-ROOM" "x" "py" 20 "b" 1 (.codeUpdate "x" "py" 20 "b") (by decide)
